import Mathlib

/-!
Verification of the allowlist loading and lookup mechanism of
`src/google/protobuf/compiler/allowlists/allowlists.cc`.

Strings are embedded as `List Char`.  The filesystem is embedded as an
association list from path to file contents; a path absent from the list is a
file that cannot be opened (for any reason: the source treats every open
failure alike).  `devtools_build::GetRunfilesDir()` is an external input and
appears as the parameter `runfilesDir`.  The fatal `ABSL_CHECK` abort is
embedded as `Option.none`: `IsAllowlisted` returns `none` exactly when the
process would abort, and `some b` when it would return the boolean `b`.
`absl::flat_hash_set` / `flat_hash_map` are embedded as lists; only
membership and lookup of the first matching key are used, which agree with
the hash containers since all inserted keys are distinct.
-/

abbrev Str := List Char

abbrev FS := List (Str × Str)

/-- Reading file `p`: `some` contents when the file opens, `none` when it
cannot be opened. -/
def fsRead (fs : FS) (p : Str) : Option Str :=
  (fs.find? (fun e => e.1 == p)).map (fun e => e.2)

/-- Modelled from the spec: `internal::AllowlistFlags` is declared in
`allowlist.h`, which is not part of the sources; the spec gives the
empty-list policy as a two-valued flag, default `kNone` (deny when empty)
versus `kAllowAllWhenEmpty`. -/
inductive AllowlistFlags where
  | kNone
  | kAllowAllWhenEmpty
deriving DecidableEq, Repr

/-- Modelled from the spec: `internal::AllowlistInfo` is declared in
`allowlist.h`, which is not part of the sources; the spec says it owns a set
of literal entries together with one policy flag fixed at load time. -/
structure AllowlistInfo where
  entries : List Str
  flag : AllowlistFlags
deriving DecidableEq, Repr

/-- Modelled from the spec: `AllowlistInfo::empty()` — whether the loaded
entry set has no entries. -/
def AllowlistInfo.empty (info : AllowlistInfo) : Bool :=
  info.entries.isEmpty

/-- Modelled from the spec: `AllowlistInfo::IsAllowlisted(file)` — exact
containment of `file` in the entry set (exact string equality, no
normalization, no prefix or pattern matching). -/
def AllowlistInfo.IsAllowlisted (info : AllowlistInfo) (file : Str) : Bool :=
  info.entries.contains file

/-- Source constant `kAllowlistPathPrefix` (renamed for Lean). -/
def kAllowlistPathPfx : Str :=
  "third_party/protobuf/compiler/allowlists/".toList

/-- Comment marker: `absl::StartsWith(line, "//")`. -/
def commentMarker : Str := "//".toList

/-- One `std::getline` loop over the whole stream: lines are the maximal
`'\n'`-free segments; a final segment not terminated by `'\n'` is still a
line; a terminating `'\n'` at end of file does not produce an extra empty
line; the empty stream yields no lines. -/
def cppGetLines : Str → List Str
  | [] => []
  | c :: cs =>
    if c = '\n' then [] :: cppGetLines cs
    else
      match cppGetLines cs with
      | [] => [[c]]
      | l :: ls => (c :: l) :: ls

/-- The loop body of `GetContents`: keep every line that does not start with
`"//"`, verbatim. -/
def parseEntries (content : Str) : List Str :=
  (cppGetLines content).filter (fun l => !(List.isPrefixOf commentMarker l))

/-- The stream `GetContents` ends up reading from: the primary resolved
location `full_path = StrCat(GetRunfilesDir(), "/google3/", path)` is tried
first; if it does not open, the bare `path` is tried. -/
def resolveContents (runfilesDir : Str) (fs : FS) (path : Str) : Option Str :=
  match fsRead fs (runfilesDir ++ "/google3/".toList ++ path) with
  | some content => some content
  | none => fsRead fs path

/-- Source function `GetContents`. -/
def GetContents (runfilesDir : Str) (fs : FS) (path : Str) : List Str :=
  match resolveContents runfilesDir fs path with
  | some content => parseEntries content
  | none => []

/-- Source function `LoadAllowlist` (three-argument overload; the
two-argument overload passes `AllowlistFlags::kNone`).  `emplace` into the
map is embedded as producing the key-value pair that `LoadAllowlists`
appends; all keys are distinct so `emplace` always inserts. -/
def LoadAllowlist (allowlist_path : Str) (flag : AllowlistFlags)
    (runfilesDir : Str) (fs : FS) : Str × AllowlistInfo :=
  let local_path := kAllowlistPathPfx ++ allowlist_path ++ ".txt".toList
  (allowlist_path, AllowlistInfo.mk (GetContents runfilesDir fs local_path) flag)

/-- Source function `LoadAllowlists`: the fixed registry contents (the value
of the function-local static map). -/
def LoadAllowlists (runfilesDir : Str) (fs : FS) : List (Str × AllowlistInfo) :=
  [LoadAllowlist "weak_imports".toList AllowlistFlags.kNone runfilesDir fs,
   LoadAllowlist "test_allowlist_empty_allow_all".toList
     AllowlistFlags.kAllowAllWhenEmpty runfilesDir fs,
   LoadAllowlist "test_allowlist_empty_allow_none".toList
     AllowlistFlags.kNone runfilesDir fs,
   LoadAllowlist "test_allowlist".toList AllowlistFlags.kNone runfilesDir fs]

/-- Lookup in the embedded map: `map.contains` / `map.at`. -/
def mapLookup (m : List (Str × AllowlistInfo)) (k : Str) : Option AllowlistInfo :=
  (m.find? (fun e => e.1 == k)).map (fun e => e.2)

/-- Body of the source function `IsAllowlisted` after the `map` local is
bound: the `ABSL_CHECK(map.contains(allowlist))` abort is `none`; otherwise
`some` of the returned boolean. -/
def isAllowlistedInMap (m : List (Str × AllowlistInfo)) (allowlist file : Str) :
    Option Bool :=
  match mapLookup m allowlist with
  | none => none
  | some info =>
    some (if !(AllowlistInfo.empty info) then AllowlistInfo.IsAllowlisted info file
          else info.flag == AllowlistFlags.kAllowAllWhenEmpty)

/-- Source function `IsAllowlisted`, after the registry static has been
initialized (the value every call computes). -/
def IsAllowlisted (runfilesDir : Str) (fs : FS) (allowlist file : Str) :
    Option Bool :=
  isAllowlistedInMap (LoadAllowlists runfilesDir fs) allowlist file

/-- Process state for the lazy-singleton registry: `registry = none` before
the function-local static in `LoadAllowlists` has run, `some m` after. -/
structure ProcState where
  registry : Option (List (Str × AllowlistInfo))
deriving DecidableEq, Repr

/-- Stateful `LoadAllowlists`: the static initializer runs on the first call
and the built map is reused by every later call. -/
def LoadAllowlistsStateful (runfilesDir : Str) (fs : FS) (s : ProcState) :
    List (Str × AllowlistInfo) × ProcState :=
  match s.registry with
  | some m => (m, s)
  | none =>
    let m := LoadAllowlists runfilesDir fs
    (m, ProcState.mk (some m))

/-- Stateful `IsAllowlisted`: one call within a process run, threading the
registry state through the call to `LoadAllowlists`. -/
def IsAllowlistedStateful (runfilesDir : Str) (fs : FS) (allowlist file : Str)
    (s : ProcState) : Option Bool × ProcState :=
  (isAllowlistedInMap (LoadAllowlistsStateful runfilesDir fs s).1 allowlist file,
   (LoadAllowlistsStateful runfilesDir fs s).2)

/-- States a process run can be in: before the registry is built, or after
(with exactly the map the static initializer builds from the immutable
inputs). -/
def validState (runfilesDir : Str) (fs : FS) (s : ProcState) : Prop :=
  s.registry = none ∨ s.registry = some (LoadAllowlists runfilesDir fs)

/-- Definition following the spec's words: the primary candidate path
`<runtime-files-root>/<project-root-marker>/<fixed-prefix>/<name>.txt`. -/
def spec_primary_candidate (runfilesRoot name : Str) : Str :=
  runfilesRoot ++ "/google3/".toList ++ kAllowlistPathPfx ++ name ++ ".txt".toList

/-- Definition following the spec's words: the fallback candidate path, the
bare relative path `<fixed-prefix>/<name>.txt`. -/
def spec_fallback_candidate (name : Str) : Str :=
  kAllowlistPathPfx ++ name ++ ".txt".toList

theorem mapLookup_mem {m : List (Str × AllowlistInfo)} {k : Str}
    {info : AllowlistInfo} (h : mapLookup m k = some info) : (k, info) ∈ m := by
  unfold mapLookup at h
  cases hf : m.find? (fun e => e.1 == k) with
  | none => rw [hf] at h; simp at h
  | some e =>
    rw [hf] at h
    have h2 : e.2 = info := by simpa using h
    have hm := List.mem_of_find?_eq_some hf
    have hp : e.1 = k := by
      have := List.find?_some hf
      simpa using this
    have : (k, info) = e := by
      cases e; simp_all
    rw [this]; exact hm


theorem registry_entries_getContents {rd : Str} {fs : FS} {k : Str}
    {info : AllowlistInfo} (h : mapLookup (LoadAllowlists rd fs) k = some info) :
    info.entries = GetContents rd fs (kAllowlistPathPfx ++ k ++ ".txt".toList) := by
  have hm := mapLookup_mem h
  simp only [LoadAllowlists, LoadAllowlist, List.mem_cons, List.mem_singleton,
    List.not_mem_nil, or_false, Prod.mk.injEq] at hm
  rcases hm with ⟨h1, h2⟩ | ⟨h1, h2⟩ | ⟨h1, h2⟩ | ⟨h1, h2⟩ <;>
    subst h1 <;> rw [h2]

theorem isAllowlistedInMap_eq {m : List (Str × AllowlistInfo)} {n : Str}
    {info : AllowlistInfo} (f : Str) (h : mapLookup m n = some info) :
    isAllowlistedInMap m n f =
      some (if !(AllowlistInfo.empty info) then AllowlistInfo.IsAllowlisted info f
            else info.flag == AllowlistFlags.kAllowAllWhenEmpty) := by
  unfold isAllowlistedInMap
  rw [h]

theorem isAllowlisted_of_nonempty {rd : Str} {fs : FS} {n : Str}
    {info : AllowlistInfo} (f : Str)
    (hlook : mapLookup (LoadAllowlists rd fs) n = some info)
    (hne : info.entries ≠ []) :
    IsAllowlisted rd fs n f = some (info.entries.contains f) := by
  unfold IsAllowlisted
  rw [isAllowlistedInMap_eq f hlook]
  have hemp : AllowlistInfo.empty info = false := by
    simp [AllowlistInfo.empty, List.isEmpty_iff, hne]
  rw [hemp]
  rfl

theorem mem_GetContents {rd : Str} {fs : FS} {path l : Str} :
    l ∈ GetContents rd fs path ↔
      ∃ content, resolveContents rd fs path = some content ∧
        l ∈ cppGetLines content ∧ List.isPrefixOf commentMarker l = false := by
  unfold GetContents
  cases h : resolveContents rd fs path with
  | none => simp
  | some content =>
    simp only [parseEntries, List.mem_filter, Option.some.injEq]
    constructor
    · rintro ⟨h1, h2⟩
      exact ⟨content, rfl, h1, by simpa using h2⟩
    · rintro ⟨c, hc, h1, h2⟩
      cases hc
      exact ⟨h1, by simp [h2]⟩

/-- Sanity check of the spec's worked example: file contents
`// comment\na/b.c\nd/e.c` loaded under the default policy. -/
theorem spec_example_check :
    IsAllowlisted "RF".toList
        [("third_party/protobuf/compiler/allowlists/test_allowlist.txt".toList,
          "// comment\na/b.c\nd/e.c".toList)]
        "test_allowlist".toList "a/b.c".toList = some true ∧
    IsAllowlisted "RF".toList
        [("third_party/protobuf/compiler/allowlists/test_allowlist.txt".toList,
          "// comment\na/b.c\nd/e.c".toList)]
        "test_allowlist".toList "// comment".toList = some false ∧
    IsAllowlisted "RF".toList
        [("third_party/protobuf/compiler/allowlists/test_allowlist.txt".toList,
          "// comment\na/b.c\nd/e.c".toList)]
        "test_allowlist".toList "x/y.c".toList = some false := by
  refine ⟨by decide, by decide, by decide⟩

/-- Demonstration filesystem: the fallback path of `test_allowlist` holds a
file with a comment line and two entries. -/
def demoFS : FS :=
  [("third_party/protobuf/compiler/allowlists/test_allowlist.txt".toList,
    "// comment\na/b.c\nd/e.c".toList)]

/-- The `AllowlistInfo` that `demoFS` loads for `test_allowlist`. -/
def demoInfo : AllowlistInfo :=
  AllowlistInfo.mk ["a/b.c".toList, "d/e.c".toList] AllowlistFlags.kNone

/-- C1: for every registered allowlist name whose loaded entry set is
non-empty, `IsAllowlisted` returns true if and only if the query string is
exactly equal to some entry of that set. -/
theorem c1_nonempty_exact_membership (rd : Str) (fs : FS) (n f : Str)
    (info : AllowlistInfo)
    (hlook : mapLookup (LoadAllowlists rd fs) n = some info)
    (hne : info.entries ≠ []) :
    IsAllowlisted rd fs n f = some true ↔ f ∈ info.entries := by
  rw [isAllowlisted_of_nonempty f hlook hne]
  simp only [Option.some.injEq]
  exact List.elem_iff

/-- Witness for C1 at a concrete filesystem. -/
theorem c1_witness :
    (IsAllowlisted "RF".toList demoFS "test_allowlist".toList "a/b.c".toList
        = some true ↔ "a/b.c".toList ∈ demoInfo.entries) ∧
    IsAllowlisted "RF".toList demoFS "test_allowlist".toList "a/b.c".toList
        = some true :=
  ⟨c1_nonempty_exact_membership "RF".toList demoFS "test_allowlist".toList
      "a/b.c".toList demoInfo (by decide) (by decide),
   (c1_nonempty_exact_membership "RF".toList demoFS "test_allowlist".toList
      "a/b.c".toList demoInfo (by decide) (by decide)).mpr (by decide)⟩

/-- C2: for every registered allowlist name whose loaded entry set is empty,
`IsAllowlisted` returns true for every query string when the flag is
`kAllowAllWhenEmpty` and false for every query string when it is `kNone`. -/
theorem c2_empty_policy (rd : Str) (fs : FS) (n f : Str) (info : AllowlistInfo)
    (hlook : mapLookup (LoadAllowlists rd fs) n = some info)
    (he : info.entries = []) :
    (info.flag = AllowlistFlags.kAllowAllWhenEmpty →
      IsAllowlisted rd fs n f = some true) ∧
    (info.flag = AllowlistFlags.kNone → IsAllowlisted rd fs n f = some false) := by
  constructor <;> intro hf <;>
    · unfold IsAllowlisted
      rw [isAllowlistedInMap_eq f hlook]
      simp [AllowlistInfo.empty, he, hf]

/-- Witness for C2: with no backing files both test lists are empty; the
`kAllowAllWhenEmpty` one allows everything, the `kNone` one denies
everything. -/
theorem c2_witness :
    IsAllowlisted [] [] "test_allowlist_empty_allow_all".toList "x".toList
        = some true ∧
    IsAllowlisted [] [] "test_allowlist_empty_allow_none".toList "x".toList
        = some false :=
  ⟨(c2_empty_policy [] [] "test_allowlist_empty_allow_all".toList "x".toList
      (AllowlistInfo.mk [] AllowlistFlags.kAllowAllWhenEmpty)
      (by decide) rfl).1 rfl,
   (c2_empty_policy [] [] "test_allowlist_empty_allow_none".toList "x".toList
      (AllowlistInfo.mk [] AllowlistFlags.kNone)
      (by decide) rfl).2 rfl⟩

/-- C3: a query against a name absent from the registry hits the
`ABSL_CHECK` abort (embedded as `none`) and never yields a boolean; a query
against a registered name never hits that branch and always yields a
boolean. -/
theorem c3_unregistered_fatal (rd : Str) (fs : FS) (n f : Str) :
    (mapLookup (LoadAllowlists rd fs) n = none →
      IsAllowlisted rd fs n f = none) ∧
    (mapLookup (LoadAllowlists rd fs) n ≠ none →
      ∃ b, IsAllowlisted rd fs n f = some b) := by
  constructor
  · intro h
    unfold IsAllowlisted isAllowlistedInMap
    rw [h]
  · intro h
    cases hl : mapLookup (LoadAllowlists rd fs) n with
    | none => exact absurd hl h
    | some info => exact ⟨_, isAllowlistedInMap_eq f hl⟩

/-- Witness for C3: an unregistered name aborts, a registered one returns a
boolean. -/
theorem c3_witness :
    IsAllowlisted [] [] "not_registered".toList "x".toList = none ∧
    ∃ b, IsAllowlisted [] [] "weak_imports".toList "x".toList = some b :=
  ⟨(c3_unregistered_fatal [] [] "not_registered".toList "x".toList).1 (by decide),
   (c3_unregistered_fatal [] [] "weak_imports".toList "x".toList).2 (by decide)⟩

/-- C4: a line beginning with the two-character comment marker is never an
entry of any loaded set, and (for a registered name with a non-empty loaded
set) `IsAllowlisted` never answers true for a query equal to a comment
line. -/
theorem c4_comment_lines_excluded (rd : Str) (fs : FS) (path n f l : Str) :
    (List.isPrefixOf commentMarker l = true → l ∉ GetContents rd fs path) ∧
    (∀ info, mapLookup (LoadAllowlists rd fs) n = some info →
      info.entries ≠ [] → List.isPrefixOf commentMarker f = true →
      IsAllowlisted rd fs n f = some false) := by
  constructor
  · intro hpre hmem
    rcases mem_GetContents.mp hmem with ⟨c, _, _, hfalse⟩
    rw [hpre] at hfalse
    cases hfalse
  · intro info hlook hne hpre
    have hnot : f ∉ info.entries := by
      rw [registry_entries_getContents hlook]
      intro hmem
      rcases mem_GetContents.mp hmem with ⟨c, _, _, hfalse⟩
      rw [hpre] at hfalse
      cases hfalse
    rw [isAllowlisted_of_nonempty f hlook hne]
    have : info.entries.contains f = false := by
      rw [← Bool.not_eq_true]
      intro hc
      exact hnot (List.elem_iff.mp hc)
    rw [this]

/-- Witness for C4: the comment line of `demoFS` is not an entry and the
query equal to it is refused. -/
theorem c4_witness :
    ("// comment".toList ∉ GetContents "RF".toList demoFS
      "third_party/protobuf/compiler/allowlists/test_allowlist.txt".toList) ∧
    IsAllowlisted "RF".toList demoFS "test_allowlist".toList
      "// comment".toList = some false :=
  ⟨(c4_comment_lines_excluded "RF".toList demoFS
      "third_party/protobuf/compiler/allowlists/test_allowlist.txt".toList
      "test_allowlist".toList "// comment".toList "// comment".toList).1
      (by decide),
   (c4_comment_lines_excluded "RF".toList demoFS
      "third_party/protobuf/compiler/allowlists/test_allowlist.txt".toList
      "test_allowlist".toList "// comment".toList "// comment".toList).2
      demoInfo (by decide) (by decide) (by decide)⟩

/-- C5: every line of the resolved file contents that does not begin with
the comment marker — blank lines included — is an entry of the loaded set,
verbatim. -/
theorem c5_noncomment_lines_verbatim (rd : Str) (fs : FS) (path content l : Str)
    (hres : resolveContents rd fs path = some content)
    (hl : l ∈ cppGetLines content)
    (hnc : List.isPrefixOf commentMarker l = false) :
    l ∈ GetContents rd fs path :=
  mem_GetContents.mpr ⟨content, hres, hl, hnc⟩

/-- Demonstration filesystem with a blank line in the backing file. -/
def demoFSblank : FS :=
  [("third_party/protobuf/compiler/allowlists/test_allowlist.txt".toList,
    "a/b.c\n\nd/e.c".toList)]

/-- Witness for C5: the blank middle line of the file in `demoFSblank` is
itself a loaded entry. -/
theorem c5_witness :
    ([] : Str) ∈ GetContents "RF".toList demoFSblank
      "third_party/protobuf/compiler/allowlists/test_allowlist.txt".toList :=
  c5_noncomment_lines_verbatim "RF".toList demoFSblank
    "third_party/protobuf/compiler/allowlists/test_allowlist.txt".toList
    "a/b.c\n\nd/e.c".toList [] (by decide) (by decide) (by decide)

/-- C6: the loader reads the primary resolved location when it opens; only
when it does not open is the bare relative path read; when neither opens the
loaded set is empty, with no error reported. -/
theorem c6_fallback_order (rd : Str) (fs : FS) (path c : Str) :
    (fsRead fs (rd ++ "/google3/".toList ++ path) = some c →
      GetContents rd fs path = parseEntries c) ∧
    (fsRead fs (rd ++ "/google3/".toList ++ path) = none →
      fsRead fs path = some c → GetContents rd fs path = parseEntries c) ∧
    (fsRead fs (rd ++ "/google3/".toList ++ path) = none →
      fsRead fs path = none → GetContents rd fs path = []) := by
  refine ⟨fun h1 => ?_, fun h1 h2 => ?_, fun h1 h2 => ?_⟩ <;>
    unfold GetContents resolveContents <;> rw [h1] <;> try rw [h2]

/-- Primary and fallback both present, with different contents. -/
def demoFSboth : FS :=
  [("RF/google3/p".toList, "x".toList), ("p".toList, "y".toList)]

/-- Witness for C6: with both candidates present the primary's contents win;
with only the fallback present it is read; with neither the set is empty. -/
theorem c6_witness :
    GetContents "RF".toList demoFSboth "p".toList = parseEntries "x".toList ∧
    GetContents "RF".toList [("p".toList, "y".toList)] "p".toList
      = parseEntries "y".toList ∧
    GetContents "RF".toList [] "p".toList = [] :=
  ⟨(c6_fallback_order "RF".toList demoFSboth "p".toList "x".toList).1
      (by decide),
   (c6_fallback_order "RF".toList [("p".toList, "y".toList)] "p".toList
      "y".toList).2.1 (by decide) (by decide),
   (c6_fallback_order "RF".toList [] "p".toList []).2.2
      (by decide) (by decide)⟩

theorem loadStateful_eq {rd : Str} {fs : FS} {s : ProcState}
    (hv : validState rd fs s) :
    (LoadAllowlistsStateful rd fs s).1 = LoadAllowlists rd fs ∧
    validState rd fs (LoadAllowlistsStateful rd fs s).2 := by
  obtain ⟨r⟩ := s
  rcases hv with h | h <;> simp only [ProcState.mk.injEq] at h <;> subst h <;>
    simp [LoadAllowlistsStateful, validState]

/-- C7: in any process state reachable within a run (registry not yet built,
or built from the immutable inputs), a call to `IsAllowlisted` observes
exactly the registry that `LoadAllowlists` builds, returns the value every
other call returns, and leaves the state reachable — so repeated calls all
return the same boolean. -/
theorem c7_deterministic (rd : Str) (fs : FS) (n f : Str) (s : ProcState)
    (hv : validState rd fs s) :
    (IsAllowlistedStateful rd fs n f s).1 = IsAllowlisted rd fs n f ∧
    validState rd fs (IsAllowlistedStateful rd fs n f s).2 := by
  obtain ⟨hm, hs⟩ := loadStateful_eq hv
  unfold IsAllowlistedStateful IsAllowlisted
  rw [hm]
  exact ⟨rfl, hs⟩

/-- Witness for C7: two successive calls from the uninitialized state agree
with the pure value. -/
theorem c7_witness :
    (IsAllowlistedStateful [] [] "weak_imports".toList "x".toList
        (ProcState.mk none)).1 = IsAllowlisted [] [] "weak_imports".toList "x".toList ∧
    validState [] [] (IsAllowlistedStateful [] [] "weak_imports".toList "x".toList
        (ProcState.mk none)).2 :=
  c7_deterministic [] [] "weak_imports".toList "x".toList (ProcState.mk none)
    (Or.inl rfl)

/-- C8: the key under which a list is registered is the name itself; its
entries are loaded from the relative path `<fixed-prefix>/<name>.txt` (the
fallback candidate); the resolved stream prefers the primary candidate
`<runfiles-root>/google3/<fixed-prefix>/<name>.txt` and falls back to the
bare relative path only when the primary does not open. -/
theorem c8_path_resolution (rd : Str) (fs : FS) (name : Str)
    (flag : AllowlistFlags) (c : Str) :
    (LoadAllowlist name flag rd fs).1 = name ∧
    (LoadAllowlist name flag rd fs).2.entries =
      GetContents rd fs (spec_fallback_candidate name) ∧
    (fsRead fs (spec_primary_candidate rd name) = some c →
      resolveContents rd fs (spec_fallback_candidate name) = some c) ∧
    (fsRead fs (spec_primary_candidate rd name) = none →
      resolveContents rd fs (spec_fallback_candidate name)
        = fsRead fs (spec_fallback_candidate name)) := by
  have hpath : rd ++ "/google3/".toList ++ spec_fallback_candidate name
      = spec_primary_candidate rd name := by
    simp [spec_fallback_candidate, spec_primary_candidate, List.append_assoc]
  refine ⟨rfl, rfl, fun h => ?_, fun h => ?_⟩ <;>
    unfold resolveContents <;> rw [hpath, h]

/-- Witness for C8 at a concrete filesystem holding only the primary
candidate for `weak_imports`. -/
theorem c8_witness :
    resolveContents "RF".toList
      [(("RF/google3/third_party/protobuf/compiler/allowlists/weak_imports.txt").toList,
        "x".toList)]
      (spec_fallback_candidate "weak_imports".toList) = some "x".toList ∧
    resolveContents "RF".toList [] (spec_fallback_candidate "weak_imports".toList)
      = fsRead [] (spec_fallback_candidate "weak_imports".toList) :=
  ⟨(c8_path_resolution "RF".toList
      [(("RF/google3/third_party/protobuf/compiler/allowlists/weak_imports.txt").toList,
        "x".toList)]
      "weak_imports".toList AllowlistFlags.kNone "x".toList).2.2.1 (by decide),
   (c8_path_resolution "RF".toList [] "weak_imports".toList
      AllowlistFlags.kNone "x".toList).2.2.2 (by decide)⟩

/-- C9: the registry holds exactly the four names in load order, and only
`test_allowlist_empty_allow_all` carries `kAllowAllWhenEmpty`; the other
three carry the default `kNone`. -/
theorem c9_registry_names_flags (rd : Str) (fs : FS) :
    (LoadAllowlists rd fs).map (fun e => (e.1, e.2.flag)) =
      [("weak_imports".toList, AllowlistFlags.kNone),
       ("test_allowlist_empty_allow_all".toList,
         AllowlistFlags.kAllowAllWhenEmpty),
       ("test_allowlist_empty_allow_none".toList, AllowlistFlags.kNone),
       ("test_allowlist".toList, AllowlistFlags.kNone)] := rfl

theorem cppGetLines_ne_nil {s : Str} (h : s ≠ []) : cppGetLines s ≠ [] := by
  cases s with
  | nil => exact absurd rfl h
  | cons c cs =>
    unfold cppGetLines
    split
    · simp
    · cases cppGetLines cs <;> simp

theorem cppGetLines_no_newline {t : Str} (hne : t ≠ []) (hnl : '\n' ∉ t) :
    cppGetLines t = [t] := by
  induction t with
  | nil => exact absurd rfl hne
  | cons c cs ih =>
    have hc : c ≠ '\n' := fun h => hnl (by simp [h])
    have hcs : '\n' ∉ cs := fun h => hnl (by simp [h])
    unfold cppGetLines
    rw [if_neg hc]
    cases hcase : cs with
    | nil => simp [cppGetLines]
    | cons d ds =>
      rw [← hcase, ih (by simp [hcase]) hcs]

theorem cppGetLines_append_newline (c t : Str) (hne : t ≠ [])
    (hnl : '\n' ∉ t) :
    cppGetLines (c ++ '\n' :: t) = cppGetLines (c ++ ['\n']) ++ [t] := by
  induction c with
  | nil =>
    simp only [List.nil_append]
    unfold cppGetLines
    rw [if_pos rfl, if_pos rfl, cppGetLines_no_newline hne hnl]
    simp [cppGetLines]
  | cons a c' ih =>
    simp only [List.cons_append]
    unfold cppGetLines
    by_cases ha : a = '\n'
    · rw [if_pos ha, if_pos ha, ih]
      simp
    · rw [if_neg ha, if_neg ha, ih]
      cases heq : cppGetLines (c' ++ ['\n']) with
      | nil => exact absurd heq (cppGetLines_ne_nil (by simp))
      | cons l ls => simp

/-- C10: a final line not terminated by a newline is still parsed as a line
— the parsed lines of `c ++ "\n" ++ t` are those of `c ++ "\n"` followed by
`t` itself — and, whether or not the file contains any newline at all, that
unterminated final line becomes a loaded entry unless it begins with the
comment marker. -/
theorem c10_last_line_without_newline (rd : Str) (fs : FS) (path c t : Str)
    (hne : t ≠ []) (hnl : '\n' ∉ t) :
    cppGetLines (c ++ '\n' :: t) = cppGetLines (c ++ ['\n']) ++ [t] ∧
    (List.isPrefixOf commentMarker t = false →
      resolveContents rd fs path = some (c ++ '\n' :: t) →
      t ∈ GetContents rd fs path) ∧
    (List.isPrefixOf commentMarker t = false →
      resolveContents rd fs path = some t →
      t ∈ GetContents rd fs path) := by
  refine ⟨cppGetLines_append_newline c t hne hnl,
    fun hnc hres => ?_, fun hnc hres => ?_⟩
  · exact mem_GetContents.mpr ⟨_, hres,
      by rw [cppGetLines_append_newline c t hne hnl]; simp, hnc⟩
  · exact mem_GetContents.mpr ⟨_, hres,
      by rw [cppGetLines_no_newline hne hnl]; simp, hnc⟩

/-- File whose final line has no terminating newline. -/
def demoFSnoNL : FS :=
  [("third_party/protobuf/compiler/allowlists/test_allowlist.txt".toList,
    "a/b.c\nd/e.c".toList)]

/-- Witness for C10: the unterminated final line `d/e.c` is a loaded
entry. -/
theorem c10_witness :
    "d/e.c".toList ∈ GetContents "RF".toList demoFSnoNL
      "third_party/protobuf/compiler/allowlists/test_allowlist.txt".toList :=
  (c10_last_line_without_newline "RF".toList demoFSnoNL
      "third_party/protobuf/compiler/allowlists/test_allowlist.txt".toList
      "a/b.c".toList "d/e.c".toList (by decide) (by decide)).2.1
    (by decide) (by decide)
